import Mathlib

/-!
Shallow embedding of the SvDPRec diffusion-model simulator
(src/src/diffusion.cpp and src/src/diffusion_parallel.cpp).

Doubles are modelled as exact rationals (ℚ); realized random draws are
passed in explicitly as streams `ℕ → ℚ`.  A normal(m, sd) sample realized
from a standard draw `w` is `m + sd * w` (location-scale, as in the boost /
dqrng normal distributions used by the source), and an R/dqrng uniform(lo,
hi) sample realized from a draw `u ∈ [0,1]` is `lo + (hi - lo) * u`.
The unbounded `while` loops of the integrator are embedded with explicit
fuel; exhausting the fuel yields `none`, which models only "the loop has
not terminated within `fuel` iterations", never an output of the program.
-/

/-- Position of the accumulator after `n` integration updates, starting at
`start`, where `inc k` is the realized increment of update `k`
(`drift_per_step + noise_sample`). -/
def posAfter (start : ℚ) (inc : ℕ → ℚ) : ℕ → ℚ
  | 0 => start
  | n + 1 => posAfter start inc n + inc n

/-- Continuation guard of the integrator loop in `diffusion_parallel.cpp`
line 44 and in `diffusion.cpp` line 165: `while (pos < a && pos > 0)`. -/
def parallelCont (a pos : ℚ) : Bool :=
  decide (pos < a) && decide (0 < pos)

/-- Continuation guard of the integrator loop in `diffusion.cpp` line 66
(`diffusion_SDT_sim2`): `while (!(pos > a || pos < 0))`. -/
def serialCont (a pos : ℚ) : Bool :=
  !(decide (a < pos) || decide (pos < 0))

/-- Index of the first integration update at which the continuation guard
fails, searching the step indices `0, 1, ..., fuel - 1`; `none` when the
guard holds throughout that range (loop still running after `fuel`
checks). -/
def firstExit (cont : ℚ → Bool) (start : ℚ) (inc : ℕ → ℚ) : ℕ → Option ℕ
  | 0 => none
  | fuel + 1 =>
    match firstExit cont start inc fuel with
    | some n => some n
    | none => if cont (posAfter start inc fuel) then none else some fuel

theorem firstExit_none_iff (cont : ℚ → Bool) (start : ℚ) (inc : ℕ → ℚ) (fuel : ℕ) :
    firstExit cont start inc fuel = none ↔
      ∀ k, k < fuel → cont (posAfter start inc k) = true := by
  induction fuel with
  | zero => simp [firstExit]
  | succ f ih =>
    constructor
    · intro h k hk
      unfold firstExit at h
      rcases hrec : firstExit cont start inc f with _ | n
      · rw [hrec] at h
        simp only at h
        rcases Nat.lt_succ_iff_lt_or_eq.mp hk with hlt | heq
        · exact ih.mp hrec k hlt
        · subst heq
          by_cases hc : cont (posAfter start inc k) = true

          · exact hc
          · simp [hc] at h
      · rw [hrec] at h
        simp at h
    · intro h
      unfold firstExit
      have hrec : firstExit cont start inc f = none :=
        ih.mpr (fun k hk => h k (Nat.lt_succ_of_lt hk))
      rw [hrec]
      simp [h f (Nat.lt_succ_self f)]

theorem firstExit_some_spec (cont : ℚ → Bool) (start : ℚ) (inc : ℕ → ℚ)
    (fuel n : ℕ) (h : firstExit cont start inc fuel = some n) :
    n < fuel ∧ cont (posAfter start inc n) = false ∧
      ∀ k, k < n → cont (posAfter start inc k) = true := by
  induction fuel with
  | zero => simp [firstExit] at h
  | succ f ih =>
    unfold firstExit at h
    rcases hrec : firstExit cont start inc f with _ | m
    · rw [hrec] at h
      by_cases hc : cont (posAfter start inc f) = true
      · simp [hc] at h
      · simp only [Bool.not_eq_true] at hc
        simp only [hc, Bool.false_eq_true, if_false, Option.some.injEq] at h
        subst h
        exact ⟨Nat.lt_succ_self _, hc,
          fun k hk => (firstExit_none_iff cont start inc _).mp hrec k hk⟩
    · rw [hrec] at h
      simp only [Option.some.injEq] at h
      subst h
      obtain ⟨h1, h2, h3⟩ := ih hrec
      exact ⟨Nat.lt_succ_of_lt h1, h2, h3⟩

theorem firstExit_some_of_initial_exit (cont : ℚ → Bool) (start : ℚ)
    (inc : ℕ → ℚ) (fuel : ℕ) (hf : 1 ≤ fuel) (h : cont start = false) :
    firstExit cont start inc fuel = some 0 := by
  induction fuel with
  | zero => omega
  | succ f ih =>
    unfold firstExit
    rcases Nat.eq_zero_or_pos f with hz | hp
    · subst hz
      simp [firstExit, posAfter, h]
    · rw [ih hp]

/-- One output row of the `N x 3` result matrix: columns `RT`,
`speeded_resp`, `delayed_resp` (all stored as doubles, default 0). -/
structure Row where
  rt : ℚ
  speeded : ℚ
  delayed : ℚ
deriving DecidableEq, Repr

/-- Secondary (delayed) response as the specification words it (spec 4.5):
1 iff evidence exceeds `crit[0]` when the primary response is upper
("said old"), 1 iff evidence exceeds `crit[1]` otherwise, else 0.  This is
the spec-side function that the rows of the code are compared against. -/
def specSecondaryResponse (evidence : ℚ) (saidOld : Bool) (crit0 crit1 : ℚ) : ℚ :=
  if saidOld then (if crit0 < evidence then 1 else 0)
  else (if crit1 < evidence then 1 else 0)

/-- Row written by `diffusion_SDT_sim2` for one trial: lines 71-75 set the
speeded response and the accumulation time `step*dt`, line 78 adds the
non-decision time, and lines 80-88 set the delayed response from
`above_crit_o`, `above_crit_n` and `said_old`. -/
def sim2Row (a dt crit0 crit1 : ℚ) (evidence ndt : ℚ) (n : ℕ) (pos : ℚ) : Row :=
  let speeded : ℚ := if a ≤ pos then 1 else 0
  let saidOld : Bool := decide (speeded = 1)
  let aboveCritO : Bool := decide (crit0 < evidence)
  let aboveCritN : Bool := decide (crit1 < evidence)
  ⟨ndt + n * dt, speeded,
    if (aboveCritO && saidOld) || (aboveCritN && !saidOld) then 1 else 0⟩

/-- Row written by the `Diffusion` worker of `diffusion_parallel.cpp`
(lines 48-59): `RT = NDT[i] + step*dt`; speeded response 1 iff
`pos >= a`; delayed response 1 iff evidence exceeds `crit[0]` resp.
`crit[1]` in the two branches (otherwise the entry stays 0). -/
def dpRow (a crit0 crit1 dt : ℚ) (evidence ndt : ℚ) (n : ℕ) (pos : ℚ) : Row :=
  ⟨ndt + n * dt,
    if a ≤ pos then 1 else 0,
    if a ≤ pos then (if crit0 < evidence then 1 else 0)
    else (if crit1 < evidence then 1 else 0)⟩

/-- Integration loop of one `diffusion_SDT_sim2` trial (lines 61-69):
`v_inst = evidence*dt` and each update adds a realized
`dqrng::rnorm(v_inst, s)` sample, i.e. `v_inst + sInst * w`.  Returns the
step count and the terminal position, `none` if the loop is still running
after `fuel` guard checks. -/
def sim2TrialSteps (a dt sInst : ℚ) (evidence startPos : ℚ) (w : ℕ → ℚ)
    (fuel : ℕ) : Option (ℕ × ℚ) :=
  let drift := evidence * dt
  let inc : ℕ → ℚ := fun k => drift + sInst * w k
  match firstExit (serialCont a) startPos inc fuel with
  | none => none
  | some n => some (n, posAfter startPos inc n)

/-- The serial trial loop of `diffusion_SDT_sim2` (lines 61-88 row-wise):
runs `count` trials starting at trial index `i`, with `c` the cursor into
the dqrng stream of walk-noise draws (each trial consumes one draw per
integration step, continuing where the previous trial stopped). -/
def sim2Loop (a dt sInst crit0 crit1 : ℚ) (evidence starts ndts : ℕ → ℚ)
    (w : ℕ → ℚ) (fuel : ℕ) : ℕ → ℕ → ℕ → Option (List Row)
  | 0, _, _ => some []
  | count + 1, i, c =>
    match sim2TrialSteps a dt sInst (evidence i) (starts i)
        (fun m => w (c + m)) fuel with
    | none => none
    | some (n, pos) =>
      match sim2Loop a dt sInst crit0 crit1 evidence starts ndts w fuel
          count (i + 1) (c + n) with
      | none => none
      | some rs =>
        some (sim2Row a dt crit0 crit1 (evidence i) (ndts i) n pos :: rs)

/-- Realized `dqrng::dqrnorm(N, m, sd)` vector (diffusion.cpp line 42):
entry `i` is `m + sd * w (c + i)` where `c` is the current cursor into the
dqrng stream and `w` its realized standard draws; consumes `N` draws. -/
def dqrnormVec (m sd : ℚ) (w : ℕ → ℚ) (c N : ℕ) : (ℕ → ℚ) × ℕ :=
  ((fun i => m + sd * w (c + i)), c + N)

/-- Realized `dqrng::dqrunif(N, lo, hi)` vector (diffusion.cpp lines 49,
56): entry `i` is `lo + (hi - lo) * w (c + i)` with the realized draws
`w (c + i)` lying in `[0, 1]`; consumes `N` draws. -/
def dqrunifVec (lo hi : ℚ) (w : ℕ → ℚ) (c N : ℕ) : (ℕ → ℚ) × ℕ :=
  ((fun i => lo + (hi - lo) * w (c + i)), c + N)

/-- Constant vector `NumericVector(N, x)` (diffusion.cpp lines 51, 58):
no random draws are consumed. -/
def constVec (x : ℚ) : ℕ → ℚ :=
  fun _ => x

/-- Stream cursor after the evidence-sampling stage of
`diffusion_SDT_sim2`: `dqrnorm(N, v, sv)` always consumes `N` draws. -/
def dqCursorAfterEv (N : ℕ) : ℕ :=
  N

/-- Stream cursor after the start-point stage: `dqrunif` consumes `N`
draws when `sz > 0`, the constant-vector branch consumes none. -/
def dqCursorAfterStart (N : ℕ) (sz : ℚ) : ℕ :=
  if 0 < sz then N + N else N

/-- Stream cursor after the non-decision-time stage: `dqrunif` consumes
`N` draws when `st0 > 0`, the constant-vector branch consumes none. -/
def dqCursorAfterNdt (N : ℕ) (sz st0 : ℚ) : ℕ :=
  if 0 < st0 then dqCursorAfterStart N sz + N else dqCursorAfterStart N sz

/-- Per-trial parameter sampling of `diffusion_SDT_sim2` (diffusion.cpp
lines 42-59): evidence strengths from `dqrnorm(N, v, sv)`
(unconditionally), start points from `dqrunif(N, z-.5*sz, z+.5*sz)` when
`sz > 0` and `NumericVector(N, z)` otherwise, non-decision times from
`dqrunif(N, t0, t0+st0)` when `st0 > 0` and `NumericVector(N, t0)`
otherwise.  Returns the three vectors and the stream cursor after
sampling.  Note the start points are `z` itself: the serial entry point
never multiplies `z` by `a`. -/
def sim2Sampling (N : ℕ) (v sv z sz t0 st0 : ℚ) (w : ℕ → ℚ) :
    ((ℕ → ℚ) × (ℕ → ℚ) × (ℕ → ℚ)) × ℕ :=
  (((dqrnormVec v sv w 0 N).1,
    (if 0 < sz then (dqrunifVec (z - sz / 2) (z + sz / 2) w (dqCursorAfterEv N) N).1
     else constVec z),
    (if 0 < st0 then (dqrunifVec t0 (t0 + st0) w (dqCursorAfterStart N sz) N).1
     else constVec t0)),
   dqCursorAfterNdt N sz st0)

/-- Entry point `diffusion_SDT_sim2` (diffusion.cpp lines 29-91) on
realized draws: `dt = .001`, sampling stage, then the serial trial loop
over trials `0..N-1`, whose walk noise continues from the cursor left by
the sampling stage.  `sInst` stands for the per-step noise scale
`sqrt(s^2 * dt)` computed on line 45 (its square root is irrational for
the default `s = 1`, so the scaled value is passed in directly). -/
def sim2Run (N : ℕ) (a v t0 z sz sv st0 sInst crit0 crit1 : ℚ)
    (w : ℕ → ℚ) (fuel : ℕ) : Option (List Row) :=
  let dt : ℚ := 1 / 1000
  let smp := sim2Sampling N v sv z sz t0 st0 w
  sim2Loop a dt sInst crit0 crit1 smp.1.1 smp.1.2.1 smp.1.2.2
    (fun m => w (smp.2 + m)) fuel N 0 0

/-- One trial of the `Diffusion` worker in `diffusion_parallel.cpp`
(lines 37-61): evidence `v + rnorm(rng)*sv` (draw 0 of the per-trial slice
of the worker stream), walk increments `drift + rnorm(rng)*s` (draws
1, 2, ...), then the output row.  Returns the row and the step count
(needed to advance the worker-stream cursor), `none` when the walk is
still running after `fuel` guard checks. -/
def dpTrial (a v sv sInst crit0 crit1 dt : ℚ) (startPos ndt : ℚ)
    (phi : ℕ → ℚ) (fuel : ℕ) : Option (Row × ℕ) :=
  let evidence := v + phi 0 * sv
  let drift := evidence * dt
  let inc : ℕ → ℚ := fun k => drift + phi (k + 1) * sInst
  match firstExit (parallelCont a) startPos inc fuel with
  | none => none
  | some n =>
    some (dpRow a crit0 crit1 dt evidence ndt n (posAfter startPos inc n), n)

/-- `Diffusion::operator()(begin, end)` of `diffusion_parallel.cpp`: runs
`count` consecutive trials starting at trial index `i`, threading the
cursor `c` into the rng stream owned by the worker (each trial consumes one
evidence draw plus one draw per integration step). -/
def dpRunFrom (a v sv sInst crit0 crit1 dt : ℚ) (startPts ndts : ℕ → ℚ)
    (phi : ℕ → ℚ) (fuel : ℕ) : ℕ → ℕ → ℕ → Option (List Row)
  | 0, _, _ => some []
  | count + 1, i, c =>
    match dpTrial a v sv sInst crit0 crit1 dt (startPts i) (ndts i)
        (fun m => phi (c + m)) fuel with
    | none => none
    | some (r, n) =>
      match dpRunFrom a v sv sInst crit0 crit1 dt startPts ndts phi fuel
          count (i + 1) (c + 1 + n) with
      | none => none
      | some rs => some (r :: rs)

/-- Rows produced by one worker invocation on the partition
`p = (begin, end)`: the worker owns the rng stream `Phi p.2` keyed by the
partition `end` index (`pcg64 rng(42, end)`, diffusion_parallel.cpp
line 35) and processes trials `begin..end-1`. -/
def dpPartitionRows (a v sv sInst crit0 crit1 dt : ℚ)
    (startPts ndts : ℕ → ℚ) (fuel : ℕ) (Phi : ℕ → ℕ → ℚ) (p : ℕ × ℕ) :
    Option (List Row) :=
  dpRunFrom a v sv sInst crit0 crit1 dt startPts ndts (Phi p.2) fuel
    (p.2 - p.1) p.1 0

/-- Realized R `runif(lo, hi)` sample from a uniform draw `u ∈ [0,1]` of
the R global generator: `lo + (hi - lo) * u`. -/
def runifR (lo hi u : ℚ) : ℚ :=
  lo + (hi - lo) * u

/-- Non-decision times of `diffusion_parallel` (line 81):
`runif(N, t0, t0 + st0)` drawn from the R global generator. -/
def dpNDT (t0 st0 : ℚ) (uNDT : ℕ → ℚ) : ℕ → ℚ :=
  fun i => runifR t0 (t0 + st0) (uNDT i)

/-- Start points of `diffusion_parallel` (lines 79-88): `z` is first
replaced by `z * a` ("convert relative starting point to absolute"), then
the start points are `runif(N, z*a - .5*sz, z*a + .5*sz)` when `sz > 0`
and the constant `z * a` otherwise. -/
def dpStartPoints (z a sz : ℚ) (uStart : ℕ → ℚ) : ℕ → ℚ :=
  fun i =>
    if 0 < sz then runifR (z * a - sz / 2) (z * a + sz / 2) (uStart i)
    else z * a

/-- Entry point `diffusion_parallel` (lines 68-92) on realized draws:
`dt = .001`, `sInst` stands for `sqrt(s^2 * dt)` (line 74), non-decision
times and start points drawn from the R global generator, then
`parallelFor` runs the worker on each partition of `[0, N)`; `Phi e`
is the realized draw stream of the worker rng `pcg64(42, e)` keyed by the
partition end `e`.  The output matrix is the concatenation of the
partition row blocks in partition order (each worker writes only its own
rows `begin..end-1`). -/
def diffusionParallelRun (N : ℕ) (a v t0 z sv st0 sz sInst crit0 crit1 : ℚ)
    (uNDT uStart : ℕ → ℚ) (parts : List (ℕ × ℕ)) (Phi : ℕ → ℕ → ℚ)
    (fuel : ℕ) : Option (List (List Row)) :=
  let dt : ℚ := 1 / 1000
  parts.mapM
    (dpPartitionRows a v sv sInst crit0 crit1 dt
      (dpStartPoints z a sz uStart) (dpNDT t0 st0 uNDT) fuel Phi)

/-!
Model of the external pcg64 generator (pcg_random.hpp, used by
diffusion.cpp): a 128-bit LCG mapping state to `state * mult + inc (mod 2^128)`
with the XSL-RR output permutation.  `diffusion.cpp` lines 11-12 hold a
process-global `pcg64 rng`; `set_diffusion_SDT_seed` reseeds it, and
`diffusion_SDT_sim2` lines 34-36 draw one value from it to seed the dqrng
stream and then call `rng.backstep(1)` (= `advance(-1)`, the inverse of
one LCG step).
-/

/-- The 128-bit state space of pcg64. -/
abbrev Pcg128 := ZMod (2 ^ 128)

/-- PCG_DEFAULT_MULTIPLIER_128, as a natural number. -/
def pcgMultN : ℕ :=
  0x2360ED051FC65DA44385DF649FCCF645

/-- Inverse of the pcg64 multiplier modulo `2^128`. -/
def pcgMultInvN : ℕ :=
  0x07DDA22B9397986098ABC8B0716EAC8D

/-- The pcg64 multiplier in `ZMod (2^128)`. -/
def pcgMult : Pcg128 :=
  (pcgMultN : ℕ)

/-- The inverse multiplier in `ZMod (2^128)`. -/
def pcgMultInv : Pcg128 :=
  (pcgMultInvN : ℕ)

/-- A pcg64 generator: current state and (odd) increment. -/
structure PcgGen where
  state : Pcg128
  inc : Pcg128
deriving DecidableEq

/-- One LCG step (`bump`): `state * mult + inc`. -/
def pcgStep (inc s : Pcg128) : Pcg128 :=
  s * pcgMult + inc

/-- The inverse of one LCG step, which is what `backstep(1)`
(= `advance(-1)`) performs on the state. -/
def pcgUnstep (inc s : Pcg128) : Pcg128 :=
  (s - inc) * pcgMultInv

/-- Rotate the 64-bit value `x` right by `r` bits. -/
def rotr64 (x r : ℕ) : ℕ :=
  ((x >>> r) ||| (x <<< (64 - r))) % 2 ^ 64

/-- XSL-RR output function of pcg64: xor-fold the 128-bit state to 64
bits and rotate by the top 6 state bits. -/
def pcgOutput (s : Pcg128) : ℕ :=
  rotr64 ((s.val >>> 64) ^^^ (s.val % 2 ^ 64)) (s.val >>> 122)

/-- `pcg64(initstate, initseq)` construction: `inc = (initseq << 1) | 1`,
`state = bump(initstate + inc)`. -/
def pcgInit (seed stream : ℕ) : PcgGen :=
  let inc : Pcg128 := 2 * (stream : Pcg128) + 1
  ⟨pcgStep inc ((seed : Pcg128) + inc), inc⟩

/-- The worker generator of `diffusion_parallel.cpp` line 35:
`pcg64 rng(42, end)` — fixed seed 42, stream keyed by the partition `end`
index; no process-global seed occurs in this translation unit. -/
def dpWorkerRng (e : ℕ) : PcgGen :=
  pcgInit 42 e

/-- `rng()`: advance the state by one step and return the permuted
output of the new state (the 128-bit pcg engines output after
advancing). -/
def pcgCall (g : PcgGen) : ℕ × PcgGen :=
  let s := pcgStep g.inc g.state
  (pcgOutput s, ⟨s, g.inc⟩)

/-- `rng.backstep(1)`. -/
def pcgBackstep1 (g : PcgGen) : PcgGen :=
  ⟨pcgUnstep g.inc g.state, g.inc⟩

/-- The dqrng-seeding prologue of `diffusion_SDT_sim2` (diffusion.cpp
lines 34-36): draw one value from the global `rng` (it seeds the dqrng
stream), then `rng.backstep(1)`.  Returns the drawn value and the global
generator as left behind by the call. -/
def sim2Prologue (g : PcgGen) : ℕ × PcgGen :=
  let d := pcgCall g
  (d.1, pcgBackstep1 d.2)

theorem pcgMult_mul_inv : pcgMult * pcgMultInv = 1 := by
  have h : pcgMultN * pcgMultInvN % 2 ^ 128 = 1 % 2 ^ 128 := by norm_num [pcgMultN, pcgMultInvN]
  have h2 : ((pcgMultN * pcgMultInvN : ℕ) : Pcg128) = ((1 : ℕ) : Pcg128) :=
    (ZMod.natCast_eq_natCast_iff _ _ _).mpr h
  calc pcgMult * pcgMultInv = ((pcgMultN * pcgMultInvN : ℕ) : Pcg128) := by
        rw [pcgMult, pcgMultInv, Nat.cast_mul]
    _ = ((1 : ℕ) : Pcg128) := h2
    _ = 1 := Nat.cast_one

theorem pcgUnstep_pcgStep (inc s : Pcg128) : pcgUnstep inc (pcgStep inc s) = s := by
  unfold pcgUnstep pcgStep
  have h : (s * pcgMult + inc - inc) * pcgMultInv = s * (pcgMult * pcgMultInv) := by
    ring
  rw [h, pcgMult_mul_inv, mul_one]

/-!
Model of `nThreads` (diffusion.cpp lines 93-103): detected hardware
concurrency, overridden by the environment variable
`RCPP_PARALLEL_NUM_THREADS` parsed with C `atoi`, but only when the
parsed value is strictly positive.
-/

/-- C `isspace` on the characters `atoi` skips. -/
def cIsSpace (c : Char) : Bool :=
  c = ' ' || c = '\t' || c = '\n' || c = '\x0b' || c = '\x0c' || c = '\r'

/-- Drop the leading whitespace of the character list. -/
def dropCSpaces : List Char → List Char
  | [] => []
  | c :: cs => if cIsSpace c then dropCSpaces cs else c :: cs

/-- Accumulate the value of the longest leading digit run. -/
def atoiDigits : List Char → ℤ → ℤ
  | [], acc => acc
  | c :: cs, acc =>
    if c.isDigit then atoiDigits cs (acc * 10 + ((c.toNat : ℤ) - ('0'.toNat : ℤ)))
    else acc

/-- C `atoi`: skip whitespace, optional sign, longest digit prefix;
yields 0 on an unparseable string. -/
def atoi (s : String) : ℤ :=
  match dropCSpaces s.data with
  | '-' :: rest => -atoiDigits rest 0
  | '+' :: rest => atoiDigits rest 0
  | cs => atoiDigits cs 0

/-- `nThreads()` (diffusion.cpp lines 93-103): start from the detected
hardware concurrency `hw`; when the environment variable is present,
parse it with `atoi` and use the result only if strictly positive. -/
def nThreads (hw : ℕ) (env : Option String) : ℕ :=
  match env with
  | none => hw
  | some str =>
    let parsed := atoi str
    if 0 < parsed then parsed.toNat else hw

theorem parallelCont_true_iff (a p : ℚ) :
    parallelCont a p = true ↔ 0 < p ∧ p < a := by
  simp [parallelCont, and_comm]

theorem parallelCont_false_iff (a p : ℚ) :
    parallelCont a p = false ↔ a ≤ p ∨ p ≤ 0 := by
  rw [← Bool.not_eq_true, parallelCont_true_iff]
  push_neg
  constructor
  · intro h
    by_cases hp : 0 < p
    · exact Or.inl (h hp)
    · exact Or.inr (le_of_not_lt hp)
  · intro h hp
    rcases h with h | h
    · exact h
    · exact absurd hp (not_lt_of_le h)

theorem serialCont_true_iff (a p : ℚ) :
    serialCont a p = true ↔ 0 ≤ p ∧ p ≤ a := by
  simp [serialCont, not_lt, and_comm]

theorem serialCont_false_iff (a p : ℚ) :
    serialCont a p = false ↔ a < p ∨ p < 0 := by
  simp only [serialCont, Bool.not_eq_false', Bool.or_eq_true, decide_eq_true_eq]

theorem posAfter_of_zero_inc (start : ℚ) (inc : ℕ → ℚ)
    (h : ∀ k, inc k = 0) : ∀ n, posAfter start inc n = start := by
  intro n
  induction n with
  | zero => rfl
  | succ m ih => rw [posAfter, ih, h m, add_zero]

theorem sim2Loop_mem_shape (a dt sInst crit0 crit1 : ℚ)
    (evidence starts ndts : ℕ → ℚ) (w : ℕ → ℚ) (fuel : ℕ) :
    ∀ count i c rows,
      sim2Loop a dt sInst crit0 crit1 evidence starts ndts w fuel count i c
        = some rows →
      ∀ r ∈ rows, ∃ j n pos, i ≤ j ∧ j < i + count ∧
        r = sim2Row a dt crit0 crit1 (evidence j) (ndts j) n pos := by
  intro count
  induction count with
  | zero =>
    intro i c rows h r hr
    simp only [sim2Loop, Option.some.injEq] at h
    subst h
    simp at hr
  | succ k ih =>
    intro i c rows h r hr
    unfold sim2Loop at h
    rcases h1 : sim2TrialSteps a dt sInst (evidence i) (starts i)
        (fun m => w (c + m)) fuel with _ | p
    · rw [h1] at h
      simp at h
    · obtain ⟨n, pos⟩ := p
      rw [h1] at h
      dsimp only at h
      rcases h2 : sim2Loop a dt sInst crit0 crit1 evidence starts ndts w fuel
          k (i + 1) (c + n) with _ | rs
      · rw [h2] at h
        simp at h
      · rw [h2] at h
        simp only [Option.some.injEq] at h
        subst h
        rcases List.mem_cons.mp hr with hr | hr
        · exact ⟨i, n, pos, le_refl i, by omega, by rw [hr]⟩
        · obtain ⟨j, n2, pos2, hj1, hj2, hj3⟩ := ih (i + 1) (c + n) rs h2 r hr
          exact ⟨j, n2, pos2, by omega, by omega, hj3⟩

theorem dpRunFrom_mem_shape (a v sv sInst crit0 crit1 dt : ℚ)
    (startPts ndts : ℕ → ℚ) (phi : ℕ → ℚ) (fuel : ℕ) :
    ∀ count i c rows,
      dpRunFrom a v sv sInst crit0 crit1 dt startPts ndts phi fuel count i c
        = some rows →
      ∀ r ∈ rows, ∃ j ev n pos, i ≤ j ∧ j < i + count ∧
        r = dpRow a crit0 crit1 dt ev (ndts j) n pos := by
  intro count
  induction count with
  | zero =>
    intro i c rows h r hr
    simp only [dpRunFrom, Option.some.injEq] at h
    subst h
    simp at hr
  | succ k ih =>
    intro i c rows h r hr
    unfold dpRunFrom at h
    rcases h1 : dpTrial a v sv sInst crit0 crit1 dt (startPts i) (ndts i)
        (fun m => phi (c + m)) fuel with _ | p
    · rw [h1] at h
      simp at h
    · obtain ⟨r1, n1⟩ := p
      rw [h1] at h
      dsimp only at h
      rcases h2 : dpRunFrom a v sv sInst crit0 crit1 dt startPts ndts phi fuel
          k (i + 1) (c + 1 + n1) with _ | rs
      · rw [h2] at h
        simp at h
      · rw [h2] at h
        simp only [Option.some.injEq] at h
        subst h
        rcases List.mem_cons.mp hr with hr | hr
        · simp only [dpTrial] at h1
          rcases h3 : firstExit (parallelCont a) (startPts i)
              (fun k2 => (v + (fun m => phi (c + m)) 0 * sv) * dt +
                (fun m => phi (c + m)) (k2 + 1) * sInst) fuel with _ | n
          · rw [h3] at h1
            simp at h1
          · rw [h3] at h1
            simp only [Option.some.injEq, Prod.mk.injEq] at h1
            exact ⟨i, v + phi (c + 0) * sv, n,
              posAfter (startPts i)
                (fun k2 => (v + phi (c + 0) * sv) * dt + phi (c + (k2 + 1)) * sInst) n,
              le_refl i, by omega, by rw [hr, ← h1.1]⟩
        · obtain ⟨j, ev, n, pos, hj1, hj2, hj3⟩ :=
            ih (i + 1) (c + 1 + n1) rs h2 r hr
          exact ⟨j, ev, n, pos, by omega, by omega, hj3⟩

theorem sim2Loop_total_of_initial_exit (a dt sInst crit0 crit1 : ℚ)
    (evidence starts ndts : ℕ → ℚ) (w : ℕ → ℚ) (fuel : ℕ)
    (hf : 1 ≤ fuel) (hstart : ∀ j, serialCont a (starts j) = false) :
    ∀ count i c, ∃ rows,
      sim2Loop a dt sInst crit0 crit1 evidence starts ndts w fuel count i c
        = some rows ∧ rows.length = count := by
  intro count
  induction count with
  | zero => exact fun i c => ⟨[], rfl, rfl⟩
  | succ k ih =>
    intro i c
    obtain ⟨rs, hrs, hlen⟩ := ih (i + 1) (c + 0)
    have h1 : sim2TrialSteps a dt sInst (evidence i) (starts i)
        (fun m => w (c + m)) fuel = some (0, starts i) := by
      simp only [sim2TrialSteps]
      rw [firstExit_some_of_initial_exit _ _ _ fuel hf (hstart i)]
      rfl
    refine ⟨sim2Row a dt crit0 crit1 (evidence i) (ndts i) 0 (starts i) :: rs,
      ?_, by simp [hlen]⟩
    unfold sim2Loop
    rw [h1]
    dsimp only
    rw [hrs]

theorem dpRunFrom_total_of_initial_exit (a v sv sInst crit0 crit1 dt : ℚ)
    (startPts ndts : ℕ → ℚ) (phi : ℕ → ℚ) (fuel : ℕ)
    (hf : 1 ≤ fuel) (hstart : ∀ j, parallelCont a (startPts j) = false) :
    ∀ count i c, ∃ rows,
      dpRunFrom a v sv sInst crit0 crit1 dt startPts ndts phi fuel count i c
        = some rows ∧ rows.length = count := by
  intro count
  induction count with
  | zero => exact fun i c => ⟨[], rfl, rfl⟩
  | succ k ih =>
    intro i c
    obtain ⟨rs, hrs, hlen⟩ := ih (i + 1) (c + 1 + 0)
    have h1 : dpTrial a v sv sInst crit0 crit1 dt (startPts i) (ndts i)
        (fun m => phi (c + m)) fuel =
        some (dpRow a crit0 crit1 dt (v + phi (c + 0) * sv) (ndts i) 0
          (startPts i), 0) := by
      simp only [dpTrial]
      rw [firstExit_some_of_initial_exit _ _ _ fuel hf (hstart i)]
      rfl
    refine ⟨dpRow a crit0 crit1 dt (v + phi (c + 0) * sv) (ndts i) 0
      (startPts i) :: rs, ?_, by simp [hlen]⟩
    unfold dpRunFrom
    rw [h1]
    dsimp only
    rw [hrs]

theorem dpRunFrom_congr (a v sv sInst crit0 crit1 dt : ℚ)
    (sp1 sp2 nd1 nd2 phi1 phi2 : ℕ → ℚ) (fuel : ℕ) (hphi : phi1 = phi2) :
    ∀ count i c,
      (∀ j, i ≤ j → j < i + count → sp1 j = sp2 j) →
      (∀ j, i ≤ j → j < i + count → nd1 j = nd2 j) →
      dpRunFrom a v sv sInst crit0 crit1 dt sp1 nd1 phi1 fuel count i c =
        dpRunFrom a v sv sInst crit0 crit1 dt sp2 nd2 phi2 fuel count i c := by
  subst hphi
  intro count
  induction count with
  | zero => intro i c _ _; rfl
  | succ k ih =>
    intro i c hs hn
    unfold dpRunFrom
    rw [hs i (le_refl i) (by omega), hn i (le_refl i) (by omega)]
    rcases h1 : dpTrial a v sv sInst crit0 crit1 dt (sp2 i) (nd2 i)
        (fun m => phi1 (c + m)) fuel with _ | p
    · rfl
    · obtain ⟨r, n⟩ := p
      dsimp only
      rw [ih (i + 1) (c + 1 + n) (fun j h1 h2 => hs j (by omega) (by omega))
        (fun j h1 h2 => hn j (by omega) (by omega))]

/-- C1 (amended): on termination at step `n`, the integrator of
`diffusion_parallel.cpp` (and of `diffusion_SDT` in diffusion.cpp) has
kept stepping exactly while `0 < pos < a` and stops at the first step with
`pos ≥ a` or `pos ≤ 0`, while the integrator of `diffusion_SDT_sim2`
keeps stepping while `0 ≤ pos ≤ a` (boundary contact included) and stops
at the first step with `pos > a` or `pos < 0`; in all variants the
primary (speeded) response is recorded as 1 iff the terminal position is
`≥ a`. -/
theorem claim_C1 (a start : ℚ) (inc : ℕ → ℚ) (fuel n : ℕ) :
    (firstExit (parallelCont a) start inc fuel = some n →
      (∀ k, k < n → 0 < posAfter start inc k ∧ posAfter start inc k < a) ∧
        (a ≤ posAfter start inc n ∨ posAfter start inc n ≤ 0)) ∧
    (firstExit (serialCont a) start inc fuel = some n →
      (∀ k, k < n → 0 ≤ posAfter start inc k ∧ posAfter start inc k ≤ a) ∧
        (a < posAfter start inc n ∨ posAfter start inc n < 0)) ∧
    (∀ dt c0 c1 ev nd pos,
      ((dpRow a c0 c1 dt ev nd n pos).speeded = 1 ↔ a ≤ pos) ∧
      ((sim2Row a dt c0 c1 ev nd n pos).speeded = 1 ↔ a ≤ pos)) := by
  refine ⟨?_, ?_, ?_⟩
  · intro h
    obtain ⟨_, hfail, hrun⟩ := firstExit_some_spec _ _ _ _ _ h
    exact ⟨fun k hk => (parallelCont_true_iff a _).mp (hrun k hk),
      (parallelCont_false_iff a _).mp hfail⟩
  · intro h
    obtain ⟨_, hfail, hrun⟩ := firstExit_some_spec _ _ _ _ _ h
    exact ⟨fun k hk => (serialCont_true_iff a _).mp (hrun k hk),
      (serialCont_false_iff a _).mp hfail⟩
  · intro dt c0 c1 ev nd pos
    constructor
    · by_cases h : a ≤ pos <;> simp [dpRow, h]
    · by_cases h : a ≤ pos <;> simp [sim2Row, h]

/-- Realized increments of the C1 counterexample trial: `1/2` on the
first update, `-1` afterwards. -/
def cex1Inc : ℕ → ℚ :=
  fun k => if k = 0 then 1 / 2 else -1

/-- C1 counterexample: with `a = 1`, start `1/2` and realized increments
`(1/2, -1, -1, ...)` the position after step 1 is exactly `a`, so the
claimed stopping rule ("stops at the first step where the position is
`≥ a`", i.e. the `pos < a && pos > 0` guard) stops at step 1 at the upper
boundary — but the loop of `diffusion_SDT_sim2` (`while (!(pos > a || pos <
0))`) keeps stepping at position `a` and only stops at step 3 with
terminal position `-1`, a lower-boundary outcome.  The third conjunct
runs the actual serial trial (evidence 0, `sInst = 1`, so the walk
increments are exactly `cex1Inc`). -/
theorem claim_C1_cex :
    posAfter (1 / 2) cex1Inc 1 = 1 ∧
    firstExit (parallelCont 1) (1 / 2) cex1Inc 10 = some 1 ∧
    sim2TrialSteps 1 (1 / 1000) 1 0 (1 / 2) cex1Inc 10 = some (3, -1) := by
  refine ⟨by norm_num [posAfter, cex1Inc], ?_, ?_⟩
  · norm_num [firstExit, posAfter, parallelCont, cex1Inc]
  · norm_num [sim2TrialSteps, firstExit, posAfter, serialCont, cex1Inc]

/-- C1 witness: a trial with `a = 1`, start `1/2` and constant increment
`1` exits at step 1 under both guards; the hypotheses of the theorem are
discharged by evaluation. -/
theorem claim_C1_witness :
    ((∀ k, k < 1 → 0 < posAfter (1 / 2) (fun _ => (1 : ℚ)) k ∧
        posAfter (1 / 2) (fun _ => (1 : ℚ)) k < 1) ∧
      (1 ≤ posAfter (1 / 2) (fun _ => (1 : ℚ)) 1 ∨
        posAfter (1 / 2) (fun _ => (1 : ℚ)) 1 ≤ 0)) ∧
    ((∀ k, k < 1 → 0 ≤ posAfter (1 / 2) (fun _ => (1 : ℚ)) k ∧
        posAfter (1 / 2) (fun _ => (1 : ℚ)) k ≤ 1) ∧
      (1 < posAfter (1 / 2) (fun _ => (1 : ℚ)) 1 ∨
        posAfter (1 / 2) (fun _ => (1 : ℚ)) 1 < 0)) :=
  ⟨(claim_C1 1 (1 / 2) (fun _ => 1) 5 1).1
      (by norm_num [firstExit, posAfter, parallelCont]),
    (claim_C1 1 (1 / 2) (fun _ => 1) 5 1).2.1
      (by norm_num [firstExit, posAfter, serialCont])⟩

/-- C8: the integration loop has no step cap — its only exit condition is
the guard, so with zero realized increments (zero per-step drift and zero
noise scale) from a start strictly between the boundaries, the guard holds
at every step index and the loop never terminates: `firstExit` is `none`
for every fuel bound, in both the serial and the parallel variant. -/
theorem claim_C8 (a start : ℚ) (inc : ℕ → ℚ) (h0 : 0 < start)
    (ha : start < a) (hinc : ∀ k, inc k = 0) :
    (∀ n, parallelCont a (posAfter start inc n) = true ∧
      serialCont a (posAfter start inc n) = true) ∧
    (∀ fuel, firstExit (parallelCont a) start inc fuel = none ∧
      firstExit (serialCont a) start inc fuel = none) := by
  have hpos : ∀ n, posAfter start inc n = start := posAfter_of_zero_inc start inc hinc
  have hguard : ∀ n, parallelCont a (posAfter start inc n) = true ∧
      serialCont a (posAfter start inc n) = true := by
    intro n
    rw [hpos n]
    exact ⟨(parallelCont_true_iff a start).mpr ⟨h0, ha⟩,
      (serialCont_true_iff a start).mpr ⟨le_of_lt h0, le_of_lt ha⟩⟩
  exact ⟨hguard, fun fuel =>
    ⟨(firstExit_none_iff _ _ _ _).mpr (fun k _ => (hguard k).1),
      (firstExit_none_iff _ _ _ _).mpr (fun k _ => (hguard k).2)⟩⟩

/-- C8 witness: start `1/2` strictly between 0 and `a = 1` with the zero
increment stream; the loop guard never fails. -/
theorem claim_C8_witness :
    (∀ n, parallelCont 1 (posAfter (1 / 2) (fun _ => 0) n) = true ∧
      serialCont 1 (posAfter (1 / 2) (fun _ => 0) n) = true) ∧
    (∀ fuel, firstExit (parallelCont 1) (1 / 2) (fun _ => 0) fuel = none ∧
      firstExit (serialCont 1) (1 / 2) (fun _ => 0) fuel = none) :=
  claim_C8 1 (1 / 2) (fun _ => 0) (by norm_num) (by norm_num) (fun _ => rfl)

/-- C2: in both implementations the delayed response column is exactly
the SDT classification of the spec: a pure function of the sampled
evidence, the primary (speeded) response and the two criteria — 1 iff
`evidence > crit[0]` when the primary response is 1, 1 iff
`evidence > crit[1]` otherwise, and 0 in every other case. -/
theorem claim_C2 (a dt c0 c1 ev nd : ℚ) (n : ℕ) (pos : ℚ) :
    (sim2Row a dt c0 c1 ev nd n pos).delayed =
      specSecondaryResponse ev
        (decide ((sim2Row a dt c0 c1 ev nd n pos).speeded = 1)) c0 c1 ∧
    (dpRow a c0 c1 dt ev nd n pos).delayed =
      specSecondaryResponse ev
        (decide ((dpRow a c0 c1 dt ev nd n pos).speeded = 1)) c0 c1 := by
  constructor
  · by_cases h : a ≤ pos <;>
      by_cases h0 : c0 < ev <;>
      by_cases h1 : c1 < ev <;>
      simp [sim2Row, specSecondaryResponse, h, h0, h1]
  · by_cases h : a ≤ pos <;>
      by_cases h0 : c0 < ev <;>
      by_cases h1 : c1 < ev <;>
      simp [dpRow, specSecondaryResponse, h, h0, h1]

theorem optionMapM_mem {α β : Type} (f : α → Option β) :
    ∀ (l : List α) (res : List β), l.mapM f = some res →
      ∀ b ∈ res, ∃ a, a ∈ l ∧ f a = some b := by
  intro l
  induction l with
  | nil =>
    intro res h b hb
    simp only [List.mapM_nil, pure, Option.some.injEq] at h
    subst h
    simp at hb
  | cons x xs ih =>
    intro res h b hb
    rw [List.mapM_cons] at h
    rcases hx : f x with _ | y
    · rw [hx] at h
      simp [Option.bind] at h
    · rw [hx] at h
      rcases hxs : xs.mapM f with _ | ys
      · rw [hxs] at h
        simp [Option.bind] at h
      · rw [hxs] at h
        simp only [Option.bind_eq_bind, Option.some_bind, pure,
          Option.some.injEq] at h
        subst h
        rcases List.mem_cons.mp hb with hb | hb
        · exact ⟨x, List.mem_cons_self x xs, by rw [hx, hb]⟩
        · obtain ⟨a, ha1, ha2⟩ := ih ys hxs b hb
          exact ⟨a, List.mem_cons_of_mem x ha1, ha2⟩

theorem sim2Sampling_ndts_bounds (N : ℕ) (v sv z sz t0 st0 : ℚ) (w : ℕ → ℚ)
    (hst0 : 0 ≤ st0)
    (hu : ∀ j, j < N → 0 ≤ w (dqCursorAfterStart N sz + j) ∧
      w (dqCursorAfterStart N sz + j) ≤ 1) :
    ∀ j, j < N → t0 ≤ (sim2Sampling N v sv z sz t0 st0 w).1.2.2 j ∧
      (sim2Sampling N v sv z sz t0 st0 w).1.2.2 j ≤ t0 + st0 := by
  intro j hj
  simp only [sim2Sampling, dqrunifVec, constVec]
  split_ifs with h
  · obtain ⟨h1, h2⟩ := hu j hj
    dsimp only
    constructor
    · nlinarith
    · nlinarith
  · simp only [constVec]
    constructor <;> linarith

theorem dpNDT_bounds (t0 st0 : ℚ) (uNDT : ℕ → ℚ) (hst0 : 0 ≤ st0)
    (hu : ∀ i, 0 ≤ uNDT i ∧ uNDT i ≤ 1) :
    ∀ i, t0 ≤ dpNDT t0 st0 uNDT i ∧ dpNDT t0 st0 uNDT i ≤ t0 + st0 := by
  intro i
  obtain ⟨h1, h2⟩ := hu i
  unfold dpNDT runifR
  constructor
  · nlinarith
  · nlinarith

/-- C3: in both entry points every produced output row has
`RT = nd + steps * dt` with `dt = 1/1000`, a step count in ℕ and `nd` the
sampled non-decision time of the trial, which lies in `[t0, t0 + st0]`; hence
every row satisfies `RT ≥ t0`, the lower bound of the non-decision-time
distribution.  The hypotheses state that the realized uniform draws
feeding the non-decision-time samples lie in `[0, 1]` and that
`st0 ≥ 0`. -/
theorem claim_C3 (N : ℕ) (a v t0 z sz sv st0 sInst crit0 crit1 : ℚ)
    (w uNDT uStart : ℕ → ℚ) (parts : List (ℕ × ℕ)) (Phi : ℕ → ℕ → ℚ)
    (fuel : ℕ) (hst0 : 0 ≤ st0)
    (huSer : ∀ j, j < N → 0 ≤ w (dqCursorAfterStart N sz + j) ∧
      w (dqCursorAfterStart N sz + j) ≤ 1)
    (huPar : ∀ i, 0 ≤ uNDT i ∧ uNDT i ≤ 1) :
    (∀ rows, sim2Run N a v t0 z sz sv st0 sInst crit0 crit1 w fuel = some rows →
      ∀ r ∈ rows, (∃ nd k, (t0 ≤ nd ∧ nd ≤ t0 + st0) ∧
        r.rt = nd + (k : ℕ) * ((1 : ℚ) / 1000)) ∧ t0 ≤ r.rt) ∧
    (∀ rowss, diffusionParallelRun N a v t0 z sv st0 sz sInst crit0 crit1
        uNDT uStart parts Phi fuel = some rowss →
      ∀ rows ∈ rowss, ∀ r ∈ rows, (∃ nd k, (t0 ≤ nd ∧ nd ≤ t0 + st0) ∧
        r.rt = nd + (k : ℕ) * ((1 : ℚ) / 1000)) ∧ t0 ≤ r.rt) := by
  constructor
  · intro rows hrun r hr
    obtain ⟨j, n, pos, hj1, hj2, hshape⟩ :=
      sim2Loop_mem_shape _ _ _ _ _ _ _ _ _ _ N 0 0 rows hrun r hr
    have hnd := sim2Sampling_ndts_bounds N v sv z sz t0 st0 w hst0 huSer j
      (by omega)
    have hrt : r.rt = (sim2Sampling N v sv z sz t0 st0 w).1.2.2 j +
        (n : ℕ) * ((1 : ℚ) / 1000) := by
      rw [hshape]
      rfl
    refine ⟨⟨_, n, hnd, hrt⟩, ?_⟩
    rw [hrt]
    have : 0 ≤ (n : ℚ) * ((1 : ℚ) / 1000) := by positivity
    linarith [hnd.1]
  · intro rowss hrun rows hrows r hr
    obtain ⟨p, hp, hpart⟩ :=
      optionMapM_mem _ parts rowss hrun rows hrows
    unfold dpPartitionRows at hpart
    obtain ⟨j, ev, n, pos, hj1, hj2, hshape⟩ :=
      dpRunFrom_mem_shape _ _ _ _ _ _ _ _ _ _ _ (p.2 - p.1) p.1 0 rows
        hpart r hr
    have hnd := dpNDT_bounds t0 st0 uNDT hst0 huPar j
    have hrt : r.rt = dpNDT t0 st0 uNDT j + (n : ℕ) * ((1 : ℚ) / 1000) := by
      rw [hshape]
      rfl
    refine ⟨⟨_, n, hnd, hrt⟩, ?_⟩
    rw [hrt]
    have : 0 ≤ (n : ℚ) * ((1 : ℚ) / 1000) := by positivity
    linarith [hnd.1]

/-- C3 witness: a concrete run (N = 1, t0 = 1/10, st0 = 1/5, all realized
uniform draws 1/2) satisfying the hypotheses of the theorem. -/
theorem claim_C3_witness :
    (∀ rows, sim2Run 1 1 2 (1 / 10) (1 / 2) 0 0 (1 / 5) 1 0 0
        (fun _ => 1 / 2) 5 = some rows →
      ∀ r ∈ rows, (∃ nd k, ((1 : ℚ) / 10 ≤ nd ∧ nd ≤ 1 / 10 + 1 / 5) ∧
        r.rt = nd + (k : ℕ) * ((1 : ℚ) / 1000)) ∧ (1 : ℚ) / 10 ≤ r.rt) ∧
    (∀ rowss, diffusionParallelRun 1 1 2 (1 / 10) (1 / 2) 0 (1 / 5) 0 1 0 0
        (fun _ => 1 / 2) (fun _ => 1 / 2) [(0, 1)] (fun _ _ => 1) 5
        = some rowss →
      ∀ rows ∈ rowss, ∀ r ∈ rows,
        (∃ nd k, ((1 : ℚ) / 10 ≤ nd ∧ nd ≤ 1 / 10 + 1 / 5) ∧
          r.rt = nd + (k : ℕ) * ((1 : ℚ) / 1000)) ∧ (1 : ℚ) / 10 ≤ r.rt) :=
  claim_C3 1 1 2 (1 / 10) (1 / 2) 0 0 (1 / 5) 1 0 0
    (fun _ => 1 / 2) (fun _ => 1 / 2) (fun _ => 1 / 2) [(0, 1)]
    (fun _ _ => 1) 5 (by norm_num)
    (fun j hj => ⟨by norm_num, by norm_num⟩)
    (fun i => ⟨by norm_num, by norm_num⟩)

/-- C4 (amended): only `diffusion_parallel` converts the relative
starting point to an absolute one: its start point is exactly `z * a`
when `sz = 0`, and when `sz > 0` it is drawn from a uniform distribution
centered on `z * a` (the draw is `z*a + sz*(u - 1/2)` and the interval
midpoint is `z * a`).  The serial entry point `diffusion_SDT_sim2` uses
`z` itself as the absolute starting position — it never multiplies by
`a`. -/
theorem claim_C4 (z a sz : ℚ) (uStart w : ℕ → ℚ) (i N : ℕ)
    (v sv t0 st0 : ℚ) (hsz : 0 < sz) :
    dpStartPoints z a 0 uStart i = z * a ∧
    dpStartPoints z a sz uStart i = z * a + sz * (uStart i - 1 / 2) ∧
    runifR (z * a - sz / 2) (z * a + sz / 2) (1 / 2) = z * a ∧
    (sim2Sampling N v sv z 0 t0 st0 w).1.2.1 i = z := by
  refine ⟨?_, ?_, ?_, ?_⟩
  · norm_num [dpStartPoints]
  · simp only [dpStartPoints, runifR, if_pos hsz]
    ring
  · simp only [runifR]
    ring
  · norm_num [sim2Sampling, constVec]

/-- C4 counterexample: with `z = 1/2` and `a = 2` the claimed absolute
starting position is `z * a = 1`, but the start point of every
`diffusion_SDT_sim2` trial is `z = 1/2` (the function does not even take
`a` into account when building the start points). -/
theorem claim_C4_cex :
    (sim2Sampling 1 0 0 (1 / 2) 0 0 0 (fun _ => 0)).1.2.1 0 = 1 / 2 ∧
    (1 : ℚ) / 2 ≠ (1 / 2) * 2 := by
  constructor
  · norm_num [sim2Sampling, constVec]
  · norm_num

/-- C4 witness: concrete instantiation with `z = 1/2`, `a = 2`,
`sz = 1 > 0` and uniform draw `1/4`. -/
theorem claim_C4_witness :
    dpStartPoints (1 / 2) 2 0 (fun _ => 1 / 4) 0 = (1 / 2) * 2 ∧
    dpStartPoints (1 / 2) 2 1 (fun _ => 1 / 4) 0 =
      (1 / 2) * 2 + 1 * ((1 : ℚ) / 4 - 1 / 2) ∧
    runifR ((1 / 2) * 2 - 1 / 2) ((1 / 2) * 2 + 1 / 2) (1 / 2) = (1 / 2) * 2 ∧
    (sim2Sampling 3 0 0 (1 / 2) 0 0 0 (fun _ => 0)).1.2.1 0 = 1 / 2 :=
  claim_C4 (1 / 2) 2 1 (fun _ => 1 / 4) (fun _ => 0) 0 3 0 0 0 0 (by norm_num)

/-- C7 (amended): neither entry point validates its parameters and no
`ValidationError` exists: the embeddings are total, and with the invalid
boundary separation `a < 0` (`0 < z`, `sz = 0`) both entry points still
return a complete table of `N` rows — every trial exits in zero steps
because the start position already fails the loop guard — while `N = 0`
yields the empty table rather than an error. -/
theorem claim_C7 (N : ℕ) (a v t0 z sv st0 sInst crit0 crit1 : ℚ)
    (w uNDT uStart : ℕ → ℚ) (Phi : ℕ → ℕ → ℚ) (fuel : ℕ)
    (ha : a < 0) (hz : 0 < z) (hfuel : 1 ≤ fuel) :
    (∃ rows, sim2Run N a v t0 z 0 sv st0 sInst crit0 crit1 w fuel
      = some rows ∧ rows.length = N) ∧
    (∃ rowss, diffusionParallelRun N a v t0 z sv st0 0 sInst crit0 crit1
      uNDT uStart [(0, N)] Phi fuel = some rowss ∧
      rowss.map List.length = [N]) ∧
    sim2Run 0 a v t0 z 0 sv st0 sInst crit0 crit1 w fuel = some [] := by
  refine ⟨?_, ?_, rfl⟩
  · have hstart : ∀ j, serialCont a
        ((sim2Sampling N v sv z 0 t0 st0 w).1.2.1 j) = false := by
      intro j
      have hz0 : (sim2Sampling N v sv z 0 t0 st0 w).1.2.1 j = z := by
        norm_num [sim2Sampling, constVec]
      rw [hz0, serialCont_false_iff]
      exact Or.inl (lt_trans ha hz)
    obtain ⟨rows, h1, h2⟩ := sim2Loop_total_of_initial_exit a (1 / 1000)
      sInst crit0 crit1 (sim2Sampling N v sv z 0 t0 st0 w).1.1
      (sim2Sampling N v sv z 0 t0 st0 w).1.2.1
      (sim2Sampling N v sv z 0 t0 st0 w).1.2.2
      (fun m => w ((sim2Sampling N v sv z 0 t0 st0 w).2 + m)) fuel hfuel
      hstart N 0 0
    exact ⟨rows, h1, h2⟩
  · have hstart : ∀ j, parallelCont a (dpStartPoints z a 0 uStart j) = false := by
      intro j
      have hz0 : dpStartPoints z a 0 uStart j = z * a := by
        norm_num [dpStartPoints]
      rw [hz0, parallelCont_false_iff]
      right
      nlinarith
    obtain ⟨rows, h1, h2⟩ := dpRunFrom_total_of_initial_exit a v sv sInst
      crit0 crit1 (1 / 1000) (dpStartPoints z a 0 uStart)
      (dpNDT t0 st0 uNDT) (Phi N) fuel hfuel hstart (N - 0) 0 0
    refine ⟨[rows], ?_, by simp [h2]⟩
    unfold diffusionParallelRun
    rw [List.mapM_cons, List.mapM_nil]
    have hp : dpPartitionRows a v sv sInst crit0 crit1 (1 / 1000)
        (dpStartPoints z a 0 uStart) (dpNDT t0 st0 uNDT) fuel Phi (0, N)
        = some rows := h1
    rw [hp]
    rfl

/-- C7 counterexample: `diffusion_SDT_sim2` with the invalid boundary
`a = -1` (and `N = 1`) does not fail — it returns a table with one row
(the trial exits in zero steps, `RT = t0`, speeded response 1 since
`-1 ≤ 1/2`); with `N = 0` it returns the empty table.  No
`ValidationError` is raised in either case, contradicting the claim. -/
theorem claim_C7_cex :
    sim2Run 1 (-1) 0 (1 / 10) (1 / 2) 0 0 0 1 0 0 (fun _ => 0) 5
      = some [⟨1 / 10, 1, 0⟩] ∧
    sim2Run 0 (-1) 0 (1 / 10) (1 / 2) 0 0 0 1 0 0 (fun _ => 0) 5
      = some [] := by
  constructor
  · norm_num [sim2Run, sim2Sampling, sim2Loop, sim2TrialSteps, firstExit,
      posAfter, serialCont, sim2Row, dqrnormVec, dqrunifVec, constVec,
      dqCursorAfterNdt, dqCursorAfterStart, dqCursorAfterEv]
  · rfl

/-- C7 witness: concrete invalid call (`a = -1`, `z = 1/2`, `N = 2`)
produces full two-row tables from both entry points and the empty table
at `N = 0`. -/
theorem claim_C7_witness :
    (∃ rows, sim2Run 2 (-1) 0 (1 / 10) (1 / 2) 0 0 0 1 0 0 (fun _ => 0) 5
      = some rows ∧ rows.length = 2) ∧
    (∃ rowss, diffusionParallelRun 2 (-1) 0 (1 / 10) (1 / 2) 0 0 0 1 0 0
      (fun _ => 0) (fun _ => 0) [(0, 2)] (fun _ _ => 0) 5 = some rowss ∧
      rowss.map List.length = [2]) ∧
    sim2Run 0 (-1) 0 (1 / 10) (1 / 2) 0 0 0 1 0 0 (fun _ => 0) 5
      = some [] :=
  claim_C7 2 (-1) 0 (1 / 10) (1 / 2) 0 0 1 0 0 (fun _ => 0) (fun _ => 0)
    (fun _ => 0) (fun _ _ => 0) 5 (by norm_num) (by norm_num) (by norm_num)

/-- C5 (amended): the `diffusion_parallel` output is a deterministic
function of the parameters, the partitioning, the per-partition worker
streams (the generator of each worker is `pcg64(42, end)` — fixed seed 42
keyed by the partition end, independent of any global seed) and the R
global-RNG draws: two calls whose uniform draws agree on the `N` trial
indices and whose worker streams agree per partition produce identical
tables.  Determinism does NOT hold from seed, parameters and partitioning
alone, because the `runif`-sampled non-decision times and start points
consult the mutable R global generator (see the counterexample). -/
theorem claim_C5 (N : ℕ) (a v t0 z sv st0 sz sInst crit0 crit1 : ℚ)
    (uNDT1 uNDT2 uStart1 uStart2 : ℕ → ℚ) (parts : List (ℕ × ℕ))
    (Phi1 Phi2 : ℕ → ℕ → ℚ) (fuel : ℕ)
    (hU : ∀ i, i < N → uNDT1 i = uNDT2 i)
    (hV : ∀ i, i < N → uStart1 i = uStart2 i)
    (hPhi : ∀ p ∈ parts, Phi1 p.2 = Phi2 p.2)
    (hE : ∀ p ∈ parts, p.2 ≤ N) :
    diffusionParallelRun N a v t0 z sv st0 sz sInst crit0 crit1
      uNDT1 uStart1 parts Phi1 fuel =
    diffusionParallelRun N a v t0 z sv st0 sz sInst crit0 crit1
      uNDT2 uStart2 parts Phi2 fuel := by
  suffices h : ∀ ps : List (ℕ × ℕ), (∀ p ∈ ps, Phi1 p.2 = Phi2 p.2) →
      (∀ p ∈ ps, p.2 ≤ N) →
      ps.mapM (dpPartitionRows a v sv sInst crit0 crit1 (1 / 1000)
        (dpStartPoints z a sz uStart1) (dpNDT t0 st0 uNDT1) fuel Phi1) =
      ps.mapM (dpPartitionRows a v sv sInst crit0 crit1 (1 / 1000)
        (dpStartPoints z a sz uStart2) (dpNDT t0 st0 uNDT2) fuel Phi2) by
    exact h parts hPhi hE
  intro ps
  induction ps with
  | nil => intro _ _; rfl
  | cons p qs ih =>
    intro hPhi2 hE2
    rw [List.mapM_cons, List.mapM_cons]
    have hpeq : dpPartitionRows a v sv sInst crit0 crit1 (1 / 1000)
        (dpStartPoints z a sz uStart1) (dpNDT t0 st0 uNDT1) fuel Phi1 p =
        dpPartitionRows a v sv sInst crit0 crit1 (1 / 1000)
        (dpStartPoints z a sz uStart2) (dpNDT t0 st0 uNDT2) fuel Phi2 p := by
      unfold dpPartitionRows
      refine dpRunFrom_congr a v sv sInst crit0 crit1 (1 / 1000)
        (dpStartPoints z a sz uStart1) (dpStartPoints z a sz uStart2)
        (dpNDT t0 st0 uNDT1) (dpNDT t0 st0 uNDT2) (Phi1 p.2) (Phi2 p.2) fuel
        (hPhi2 p (List.mem_cons_self p qs)) (p.2 - p.1) p.1 0 ?_ ?_
      · intro j hj1 hj2
        have hjN : j < N := by
          have := hE2 p (List.mem_cons_self p qs)
          omega
        simp only [dpStartPoints]
        rw [hV j hjN]
      · intro j hj1 hj2
        have hjN : j < N := by
          have := hE2 p (List.mem_cons_self p qs)
          omega
        simp only [dpNDT]
        rw [hU j hjN]
    rw [hpeq, ih (fun q hq => hPhi2 q (List.mem_cons_of_mem p hq))
      (fun q hq => hE2 q (List.mem_cons_of_mem p hq))]

/-- C5 counterexample: two `diffusion_parallel` calls with identical
parameters, identical partitioning `[(0, 1)]` and identical worker
streams, but different R global-RNG states (non-decision-time draw `1/4`
versus `3/4`, both legitimate uniform draws in `[0, 1]`) produce
different output tables — so the table is not determined by the global
seed, the parameters and the partitioning alone. -/
theorem claim_C5_cex :
    ((0 : ℚ) ≤ 1 / 4 ∧ (1 : ℚ) / 4 ≤ 1 ∧ (0 : ℚ) ≤ 3 / 4 ∧ (3 : ℚ) / 4 ≤ 1) ∧
    diffusionParallelRun 1 1 2 (1 / 10) (1 / 2) 0 (1 / 5) 0 1 0 0
        (fun _ => 1 / 4) (fun _ => 0) [(0, 1)] (fun _ _ => 1) 5 ≠
      diffusionParallelRun 1 1 2 (1 / 10) (1 / 2) 0 (1 / 5) 0 1 0 0
        (fun _ => 3 / 4) (fun _ => 0) [(0, 1)] (fun _ _ => 1) 5 := by
  refine ⟨⟨by norm_num, by norm_num, by norm_num, by norm_num⟩, ?_⟩
  norm_num [diffusionParallelRun, dpPartitionRows, dpRunFrom, dpTrial,
    dpRow, dpNDT, dpStartPoints, runifR, firstExit, posAfter, parallelCont,
    List.mapM, List.mapM.loop]

/-- C5 witness: two calls whose draws agree on the single trial index 0
(but disagree beyond the trial range) and whose worker streams coincide
give identical tables. -/
theorem claim_C5_witness :
    diffusionParallelRun 1 1 2 (1 / 10) (1 / 2) 0 (1 / 5) 0 1 0 0
      (fun i => if i < 1 then 1 / 4 else 0) (fun i => if i < 1 then 1 / 3 else 0)
      [(0, 1)] (fun _ _ => 1) 5 =
    diffusionParallelRun 1 1 2 (1 / 10) (1 / 2) 0 (1 / 5) 0 1 0 0
      (fun i => if i < 1 then 1 / 4 else 5) (fun i => if i < 1 then 1 / 3 else 7)
      [(0, 1)] (fun _ _ => 1) 5 :=
  claim_C5 1 1 2 (1 / 10) (1 / 2) 0 (1 / 5) 0 1 0 0
    (fun i => if i < 1 then 1 / 4 else 0) (fun i => if i < 1 then 1 / 4 else 5)
    (fun i => if i < 1 then 1 / 3 else 0) (fun i => if i < 1 then 1 / 3 else 7)
    [(0, 1)] (fun _ _ => 1) (fun _ _ => 1) 5
    (fun i hi => by simp [hi])
    (fun i hi => by simp [hi])
    (fun p _ => rfl)
    (fun p hp => by
      rw [List.mem_singleton] at hp
      subst hp
      exact le_refl 1)

/-- C6 (amended): in `diffusion_SDT_sim2` the `sz = 0` and `st0 = 0`
cases take explicit point-mass branches (constant vectors consuming no
dqrng draws — with all three variabilities zero the sampling cursor
advances only by the `N` unconditional evidence draws), whereas `sv` has
no such branch: evidence is always sampled through the normal
distribution, and `diffusion_parallel` likewise always draws its
non-decision times through `runif(t0, t0+st0)`.  Still, with `sv = 0`,
`sz = 0`, `st0 = 0` the sampled evidence of every trial, start position and
non-decision time are exactly `v`, `z` (`z * a` in `diffusion_parallel`)
and `t0`. -/
theorem claim_C6 (N : ℕ) (v sv z sz t0 st0 a : ℚ) (w uNDT uStart : ℕ → ℚ)
    (i : ℕ) (hsv : sv = 0) (hsz : sz = 0) (hst0 : st0 = 0) :
    (sim2Sampling N v sv z sz t0 st0 w).1.1 i = v ∧
    (sim2Sampling N v sv z sz t0 st0 w).1.2.1 i = z ∧
    (sim2Sampling N v sv z sz t0 st0 w).1.2.2 i = t0 ∧
    (sim2Sampling N v sv z sz t0 st0 w).2 = N ∧
    dpNDT t0 st0 uNDT i = t0 ∧
    dpStartPoints z a sz uStart i = z * a := by
  subst hsv hsz hst0
  refine ⟨?_, ?_, ?_, ?_, ?_, ?_⟩ <;>
    norm_num [sim2Sampling, dqrnormVec, dqrunifVec, constVec,
      dqCursorAfterNdt, dqCursorAfterStart, dqCursorAfterEv, dpNDT,
      dpStartPoints, runifR]

/-- C6 counterexample: with `sv = 0` (and `sz = st0 = 0`, `N = 1`) the
evidence stage of `diffusion_SDT_sim2` still consumes a dqrng draw — the
sampling cursor ends at 1, not 0 — because `dqrnorm(N, v, 0)` is
constructed and drawn unconditionally: there is no explicit point-mass
branch for `sv` (an explicit branch leaves the stream untouched, as the
`sz` and `st0` branches do; the sampled value is nevertheless exactly
`v = 5`). -/
theorem claim_C6_cex :
    (sim2Sampling 1 5 0 (1 / 2) 0 (3 / 10) 0 (fun _ => 7)).2 = 1 ∧
    (sim2Sampling 1 5 0 (1 / 2) 0 (3 / 10) 0 (fun _ => 7)).2 ≠ 0 ∧
    (dqrnormVec 5 0 (fun _ => 7) 0 1).2 = 1 ∧
    (sim2Sampling 1 5 0 (1 / 2) 0 (3 / 10) 0 (fun _ => 7)).1.1 0 = 5 := by
  refine ⟨?_, ?_, rfl, ?_⟩ <;>
    norm_num [sim2Sampling, dqrnormVec, dqCursorAfterNdt,
      dqCursorAfterStart, dqCursorAfterEv]

/-- C6 witness: concrete degenerate-variability run (`v = 5`,
`z = 1/2`, `t0 = 3/10`, `a = 2`): all samples are the central
parameters. -/
theorem claim_C6_witness :
    (sim2Sampling 4 5 0 (1 / 2) 0 (3 / 10) 0 (fun _ => 7)).1.1 2 = 5 ∧
    (sim2Sampling 4 5 0 (1 / 2) 0 (3 / 10) 0 (fun _ => 7)).1.2.1 2 = 1 / 2 ∧
    (sim2Sampling 4 5 0 (1 / 2) 0 (3 / 10) 0 (fun _ => 7)).1.2.2 2 = 3 / 10 ∧
    (sim2Sampling 4 5 0 (1 / 2) 0 (3 / 10) 0 (fun _ => 7)).2 = 4 ∧
    dpNDT (3 / 10) 0 (fun _ => 7) 2 = 3 / 10 ∧
    dpStartPoints (1 / 2) 2 0 (fun _ => 7) 2 = (1 / 2) * 2 :=
  claim_C6 4 5 0 (1 / 2) 0 (3 / 10) 0 2 (fun _ => 7) (fun _ => 7)
    (fun _ => 7) 2 rfl rfl rfl

/-- C9: the worker-count computation never fails: with no environment
override it returns the detected hardware concurrency; an override that
parses (via C `atoi`, which yields 0 on unparseable strings) to zero or a
negative value falls back to the hardware concurrency; a strictly
positive parsed value is used as given. -/
theorem claim_C9 (hw : ℕ) :
    nThreads hw none = hw ∧
    (∀ s, atoi s ≤ 0 → nThreads hw (some s) = hw) ∧
    (∀ s, 0 < atoi s → nThreads hw (some s) = (atoi s).toNat) := by
  refine ⟨rfl, ?_, ?_⟩
  · intro s h
    simp only [nThreads]
    rw [if_neg (not_lt.mpr h)]
  · intro s h
    simp only [nThreads]
    rw [if_pos h]

/-- C9 witness: absent, empty, unparseable, zero and negative overrides
all yield the hardware concurrency 8; the positive override "16" is used
as given. -/
theorem claim_C9_witness :
    nThreads 8 none = 8 ∧
    (atoi "" ≤ 0 ∧ nThreads 8 (some "") = 8) ∧
    (atoi "abc" ≤ 0 ∧ nThreads 8 (some "abc") = 8) ∧
    (atoi "0" ≤ 0 ∧ nThreads 8 (some "0") = 8) ∧
    (atoi "-3" ≤ 0 ∧ nThreads 8 (some "-3") = 8) ∧
    (0 < atoi "16" ∧ nThreads 8 (some "16") = (atoi "16").toNat) :=
  ⟨(claim_C9 8).1,
    ⟨by decide, (claim_C9 8).2.1 "" (by decide)⟩,
    ⟨by decide, (claim_C9 8).2.1 "abc" (by decide)⟩,
    ⟨by decide, (claim_C9 8).2.1 "0" (by decide)⟩,
    ⟨by decide, (claim_C9 8).2.1 "-3" (by decide)⟩,
    ⟨by decide, (claim_C9 8).2.2 "16" (by decide)⟩⟩

/-- C10: the dqrng-seeding prologue of `diffusion_SDT_sim2` draws one
value from the process-global `rng` and rewinds it with `backstep(1)`,
leaving the generator in exactly its pre-call state; consequently a
second call without an intervening reseed derives the same dqrng seed
value. -/
theorem claim_C10 (g : PcgGen) :
    (sim2Prologue g).2 = g ∧
    (sim2Prologue ((sim2Prologue g).2)).1 = (sim2Prologue g).1 := by
  obtain ⟨s, i⟩ := g
  have h1 : (sim2Prologue ⟨s, i⟩).2 = ⟨s, i⟩ := by
    simp [sim2Prologue, pcgCall, pcgBackstep1, pcgUnstep_pcgStep]
  exact ⟨h1, by rw [h1]⟩
